import Mathlib

/-!
Verification of the `run` script interpreter: a shallow embedding of its
tokenizer (`util.rs`), variable environment (`env.rs`), item/pipeline/argument
parser (`parser.rs`) and the `cp` built-in of the executor (`pipeline.rs`),
with theorems settling the specification's claims.

All program text is modelled as `List Char`.  Machine integers (`usize`)
are modelled as `Nat` with explicit wraparound modulo `2 ^ 64`
(release-mode wrapping semantics for overflowing arithmetic).
-/

set_option autoImplicit false

/-- Rust's `char::is_whitespace` (the Unicode White_Space property). -/
def isWhitespaceRust (c : Char) : Bool :=
  let n := c.toNat
  (Nat.ble 0x9 n && Nat.ble n 0xD) || n == 0x20 || n == 0x85 || n == 0xA0 ||
    n == 0x1680 || (Nat.ble 0x2000 n && Nat.ble n 0x200A) || n == 0x2028 ||
    n == 0x2029 || n == 0x202F || n == 0x205F || n == 0x3000

/-- The inner quote-mode loop of `SplitWords::next` (util.rs lines 28-42):
consumes characters after an opening `"`.  `w` is the word buffer so far.
Returns `.inl (word, rest)` when a bare `"` closes the span (the iterator
returns the word immediately), and `.inr word` when the character source is
exhausted before a closing quote.  The two-character escape `\"` is kept
literally as backslash-quote. -/
def inQuote (w : List Char) : List Char → (List Char × List Char) ⊕ List Char
  | [] => .inr w
  | [c] => if c = '"' then .inl (w, []) else .inr (w ++ [c])
  | c :: c2 :: rest =>
    if c = '\\' ∧ c2 = '"' then inQuote (w ++ ['\\', '"']) rest
    else if c = '"' then .inl (w, c2 :: rest)
    else inQuote (w ++ [c]) (c2 :: rest)

/-- One call of `SplitWords::next` (util.rs lines 21-62): accumulates the
buffer `w` over the remaining character stream and yields the next token
together with the not-yet-consumed remainder of the stream.
When the stream ends inside a quoted span, the code falls through the
whitespace test with `c` still bound to the opening `"`, pushes that quote
onto the buffer, and the exhausted outer loop then yields the buffer. -/
def nextWord (w : List Char) : List Char → Option (List Char × List Char)
  | [] => if w = [] then none else some (w, [])
  | c :: rest =>
    if c = '"' then
      match inQuote w rest with
      | .inl (tok, rest') => some (tok, rest')
      | .inr tok => some (tok ++ ['"'], [])
    else if isWhitespaceRust c then
      if w = [] then nextWord [] rest else some (w, rest)
    else nextWord (w ++ [c]) rest

/-- Driving the `SplitWords` iterator to exhaustion.  The fuel argument only
serves Lean's termination checker; every yielded token consumes at least one
character of the stream, so `length + 1` units of fuel (as supplied by
`splitWordsAll`) always suffice. -/
def splitWordsFuel : Nat → List Char → List (List Char)
  | 0, _ => []
  | fuel + 1, l =>
    match nextWord [] l with
    | none => []
    | some (w, rest) => w :: splitWordsFuel fuel rest

/-- All tokens of a character stream, in order (collecting the `SplitWords`
iterator of util.rs). -/
def splitWordsAll (l : List Char) : List (List Char) :=
  splitWordsFuel (l.length + 1) l

/-- Rust `str::split` on a single-character pattern. -/
def splitOnChar (sep : Char) : List Char → List (List Char)
  | [] => [[]]
  | c :: rest =>
    if c = sep then [] :: splitOnChar sep rest
    else
      match splitOnChar sep rest with
      | [] => [[c]]
      | t :: ts => (c :: t) :: ts

/-- Prepend a character onto the first piece of a split result. -/
def consHead (c : Char) : List (List Char) → List (List Char)
  | [] => [[c]]
  | t :: ts => (c :: t) :: ts

/-- Rust `str::split` on a three-character pattern `[a, b, c]`
(non-overlapping, scanning left to right); used for the `" | "` delimiter. -/
def splitOnSep3 (a b c : Char) : List Char → List (List Char)
  | x :: y :: z :: rest =>
    if x = a ∧ y = b ∧ z = c then [] :: splitOnSep3 a b c rest
    else consHead x (splitOnSep3 a b c (y :: z :: rest))
  | l => [l]

/-- Rust `str::find` for a three-character pattern: byte index of the first
occurrence; used for the `" > "` terminus marker. -/
def findSub3 (a b c : Char) : List Char → Option Nat
  | x :: y :: z :: rest =>
    if x = a ∧ y = b ∧ z = c then some 0
    else (findSub3 a b c (y :: z :: rest)).map (· + 1)
  | _ => none

/-- Rust `str::trim_start_matches` for a three-character pattern: repeatedly
removes the pattern from the front. -/
def trimStartSep3 (a b c : Char) : List Char → List Char
  | x :: y :: z :: rest =>
    if x = a ∧ y = b ∧ z = c then trimStartSep3 a b c rest
    else x :: y :: z :: rest
  | l => l

/-- Does the fragment start with `"- "` (dash, space)? -/
def isDashSpacePfx : List Char → Bool
  | '-' :: ' ' :: _ => true
  | _ => false

/-- Rust `str::trim_start_matches("- ")`: repeatedly strip a leading
dash-space pair. -/
def trimStartDash : List Char → List Char
  | '-' :: ' ' :: rest => trimStartDash rest
  | l => l

/-- Does the token start with `'-'`? (env.rs `arg.starts_with("-")`). -/
def isDashPfx : List Char → Bool
  | '-' :: _ => true
  | _ => false

/-- Does the (trimmed) line start with `"//"`? -/
def isCommentPfx : List Char → Bool
  | '/' :: '/' :: _ => true
  | _ => false

/-- Rust `str::trim_matches('-')`: strip all leading and trailing dashes. -/
def trimDashes (l : List Char) : List Char :=
  ((l.dropWhile (· = '-')).reverse.dropWhile (· = '-')).reverse

/-- Rust `str::trim`: strip leading and trailing whitespace. -/
def trimChars (l : List Char) : List Char :=
  ((l.dropWhile isWhitespaceRust).reverse.dropWhile isWhitespaceRust).reverse

/-- Strip one trailing carriage return (for `str::lines`). -/
def stripCR (l : List Char) : List Char :=
  if l.getLast? = some '\r' then l.dropLast else l

/-- Rust `str::lines`: split on `'\n'`, strip a `'\r'` before each consumed
`'\n'`, and do not produce a final empty line for a trailing newline. -/
def linesOf (s : List Char) : List (List Char) :=
  let parts := splitOnChar '\n' s
  let init := (parts.dropLast).map stripCR
  match parts.getLast? with
  | none => init
  | some [] => init
  | some last => init ++ [last]

/-- The variable environment of env.rs: a named map (modelled as an
association list; Rust's `HashMap::insert` replaces, which the front-biased
`lookupNamed` reproduces observationally) plus ordered positional values. -/
structure Environment where
  named : List (List Char × List Char)
  positional : List (List Char)
deriving DecidableEq

/-- `HashMap::get`: the value for a key (the most recent insertion wins). -/
def lookupNamed : List (List Char × List Char) → List Char → Option (List Char)
  | [], _ => none
  | (k, v) :: rest, key => if k = key then some v else lookupNamed rest key

/-- The token-processing loop of `Environment::from_str` (env.rs lines 28-40):
a token starting with `-` names a flag whose value is the next token; a
following token that itself starts with `-` is a "missing a value" error; a
flag with no following token is silently dropped; other tokens are
positional. -/
def envLoop (env : Environment) : List (List Char) → Except (List Char) Environment
  | [] => .ok env
  | arg :: rest =>
    if isDashPfx arg then
      match rest with
      | [] => .ok env
      | v :: rest' =>
        if isDashPfx v then .error (arg ++ " is missing a value".data)
        else envLoop ⟨(trimDashes arg, v) :: env.named, env.positional⟩ rest'
    else envLoop ⟨env.named, env.positional ++ [arg]⟩ rest

/-- `Environment::from_str` (env.rs lines 15-43): tokenize the raw argument
string with the word splitter and process the tokens. -/
def environmentFromStr (s : List Char) : Except (List Char) Environment :=
  envLoop ⟨[], []⟩ (splitWordsAll s)

/-- Rust `usize::from_str`: an optional `'+'` sign, then one or more ASCII
digits; the value must fit in 64 bits. -/
def parseUsize (s : List Char) : Option Nat :=
  let digits := match s with
    | '+' :: rest => rest
    | _ => s
  if digits.isEmpty then none
  else if digits.all (fun c => c.isDigit) then
    let n := digits.foldl (fun acc c => acc * 10 + (c.toNat - 48)) 0
    if n < 2 ^ 64 then some n else none
  else none

/-- Release-mode wrapping subtraction on `usize` (valid for `b ≤ 2 ^ 64`):
`index - 1` in parser.rs line 152 wraps around when `index = 0`. -/
def usizeSub (a b : Nat) : Nat := (a + 2 ^ 64 - b) % 2 ^ 64

/-- The ident-collecting loop of `ItemParser::parse_argument` (parser.rs
lines 133-141): characters up to `')'` form the ident, everything after the
`')'` is the suffix (if no `')'` appears, the rest is all ident). -/
def scanIdent : List Char → (List Char × List Char)
  | [] => ([], [])
  | c :: rest =>
    if c = ')' then ([], rest)
    else
      let (id, suf) := scanIdent rest
      (c :: id, suf)

/-- The character scan of `ItemParser::parse_argument` (parser.rs lines
128-149), returning `(prefix, ident, suffix)`.  A `'$'` whose next character
is `'('` opens the substitution site; a `'$'` followed by any other character
is dropped (not pushed onto the prefix); a trailing `'$'` is pushed onto the
prefix. -/
def scanArg : List Char → (List Char × List Char × List Char)
  | [] => ([], [], [])
  | c :: rest =>
    if c = '$' then
      match rest with
      | [] => (['$'], [], [])
      | c2 :: rest' =>
        if c2 = '(' then
          let (id, suf) := scanIdent rest'
          ([], id, suf)
        else scanArg rest
    else
      let (pre, id, suf) := scanArg rest
      (c :: pre, id, suf)

/-- The value resolution of `parse_argument` (parser.rs lines 151-154): an
ident that parses as a `usize` is a 1-based positional index (the `index - 1`
computed with wrapping subtraction), any other ident is a named key. -/
def resolveIdent (env : Environment) (id : List Char) : Option (List Char) :=
  match parseUsize id with
  | some index => env.positional.get? (usizeSub index 1)
  | none => lookupNamed env.named id

/-- `ItemParser::parse_argument` (parser.rs lines 117-163). -/
def parseArgument (env : Environment) (arg : List Char) : Except (List Char) (List Char) :=
  if '$' ∈ arg then
    let (pre, id, suf) := scanArg arg
    match resolveIdent env id with
    | some v => .ok (pre ++ v ++ suf)
    | none => .error ("no value specified for argument: ".data ++ id)
  else .ok arg

/-- One command of a pipeline (parser.rs `Cmd`). -/
structure Cmd where
  name : List Char
  args : List (List Char)
deriving DecidableEq

/-- A parsed item (parser.rs `Item`): a comment line or a pipeline. -/
inductive Item where
  | comment (text : List Char)
  | pipeline (cmds : List Cmd) (terminus : Option (List Char))
      ( ignore_failure : Bool) (literal : List Char)
deriving DecidableEq

/-- Rust's `collect::<Result<Vec<_>, _>>()`: map a fallible function over a
list, stopping at the first error. -/
def collectResult {α β ε : Type} (f : α → Except ε β) : List α → Except ε (List β)
  | [] => .ok []
  | a :: rest =>
    match f a with
    | .error e => .error e
    | .ok b =>
      match collectResult f rest with
      | .error e => .error e
      | .ok bs => .ok (b :: bs)

/-- Turning one raw command string into a `Cmd` (parser.rs lines 90-107):
tokenize with the word splitter; the first token is the command name, the
remaining tokens run through `parse_argument`; no token at all is the
"empty command" error. -/
def tokenizeCmd (env : Environment) (raw : List Char) : Except (List Char) Cmd :=
  match splitWordsAll raw with
  | [] => .error "empty command".data
  | name :: args =>
    match collectResult (parseArgument env) args with
    | .error e => .error e
    | .ok vs => .ok ⟨name, vs⟩

/-- `ItemParser::parse_pipeline` (parser.rs lines 63-115): capture the
fragment as `literal`; strip a leading `"- "` to set `ignore_failure`; split
on the literal `" | "`; carve a `" > "` terminus out of the last raw command
only; tokenize every raw command. -/
def parsePipeline (env : Environment) (s : List Char) : Except (List Char) Item :=
  let (s1, ig) := if isDashSpacePfx s then (trimStartDash s, true) else (s, false)
  let cmds0 := splitOnSep3 ' ' '|' ' ' s1
  match cmds0.getLast? with
  | none => .error "no commands to parse".data
  | some last =>
    let (cmds1, term) :=
      match findSub3 ' ' '>' ' ' last with
      | some index =>
          (cmds0.dropLast ++ [last.take index],
            some (trimStartSep3 ' ' '>' ' ' (last.drop index)))
      | none => (cmds0, none)
    match collectResult (tokenizeCmd env) cmds1 with
    | .error e => .error e
    | .ok cs => .ok (.pipeline cs term ig s)

/-- The raw command strings of a fragment, exactly as `parse_pipeline`
computes them before tokenization (for stating theorems about it). -/
def fragmentRaws (s : List Char) : List (List Char) :=
  let s1 := if isDashSpacePfx s then trimStartDash s else s
  let cmds0 := splitOnSep3 ' ' '|' ' ' s1
  match cmds0.getLast? with
  | none => []
  | some last =>
    match findSub3 ' ' '>' ' ' last with
    | some index => cmds0.dropLast ++ [last.take index]
    | none => cmds0

/-- The terminus of a fragment, exactly as `parse_pipeline` computes it. -/
def fragmentTerminus (s : List Char) : Option (List Char) :=
  let s1 := if isDashSpacePfx s then trimStartDash s else s
  let cmds0 := splitOnSep3 ' ' '|' ' ' s1
  match cmds0.getLast? with
  | none => none
  | some last =>
    match findSub3 ' ' '>' ' ' last with
    | some index => some (trimStartSep3 ' ' '>' ' ' (last.drop index))
    | none => none

/-- `ItemParser::parse` (parser.rs lines 44-59): per trimmed non-empty line,
a `//` line is a comment item, otherwise the `';'`-separated fragments are
parsed as pipelines; the per-line results are flattened in order. -/
def parseItems (env : Environment) (s : List Char) : Except (List Char) (List Item) :=
  match collectResult
      (fun line =>
        if isCommentPfx line then Except.ok [Item.comment line]
        else collectResult (parsePipeline env) (splitOnChar ';' line))
      (((linesOf s).map trimChars).filter (fun l => !l.isEmpty)) with
  | .error e => .error e
  | .ok nested => .ok nested.flatten

/-- Rust `Debug` formatting of an `Option<String>` (for the `cp` error). -/
def optionDebugFmt : Option (List Char) → List Char
  | none => "None".data
  | some s => "Some(\"".data ++ s ++ "\")".data

/-- The `cp` arm of `Pipeline::execute` (pipeline.rs lines 41-54),
parameterized by the filesystem copy operation (`fn cp`, which returns the
cause on failure): the first two arguments are taken as source and
destination; if either is missing the pipeline aborts with
`"cp: invalid arguments: ..."`; a copy failure aborts with
`"cp <src> <dst>: <cause>"`. -/
def cpCommand (copy : List Char → List Char → Except (List Char) Unit)
    (args : List (List Char)) : Except (List Char) Unit :=
  let src := args.get? 0
  let dst := args.get? 1
  match src, dst with
  | some s, some d =>
    match copy s d with
    | .ok u => .ok u
    | .error e => .error ("cp ".data ++ s ++ " ".data ++ d ++ ": ".data ++ e)
  | _, _ =>
    .error ("cp: invalid arguments: ".data ++ optionDebugFmt src ++ " ".data ++
      optionDebugFmt dst)

/-- Modelled from the claim's words (C1): an ident "parses as a positive
integer".  Used only to state the counterexample against the claim; the
source's own resolution is `resolveIdent`. -/
def specPositiveInt (s : List Char) : Option Nat :=
  match parseUsize s with
  | some n => if n = 0 then none else some n
  | none => none


/-! ### Helper lemmas -/

theorem collectResult_ok_length {α β ε : Type} (f : α → Except ε β) :
    ∀ (l : List α) (l' : List β), collectResult f l = .ok l' → l'.length = l.length := by
  intro l
  induction l with
  | nil => intro l' h; simp [collectResult] at h; simp [← h]
  | cons a rest ih =>
    intro l' h
    simp only [collectResult] at h
    cases hf : f a with
    | error e => rw [hf] at h; simp at h
    | ok b =>
      rw [hf] at h
      cases hc : collectResult f rest with
      | error e => rw [hc] at h; simp at h
      | ok bs =>
        rw [hc] at h
        simp at h
        subst h
        simp [ih bs hc]

theorem collectResult_ok_forall {α β ε : Type} (f : α → Except ε β) :
    ∀ (l : List α) (l' : List β), collectResult f l = .ok l' →
      ∀ b ∈ l', ∃ a ∈ l, f a = .ok b := by
  intro l
  induction l with
  | nil => intro l' h; simp [collectResult] at h; subst h; simp
  | cons a rest ih =>
    intro l' h
    simp only [collectResult] at h
    cases hf : f a with
    | error e => rw [hf] at h; simp at h
    | ok b =>
      rw [hf] at h
      cases hc : collectResult f rest with
      | error e => rw [hc] at h; simp at h
      | ok bs =>
        rw [hc] at h
        simp at h
        subst h
        intro x hx
        rcases List.mem_cons.mp hx with h1 | h2
        · exact ⟨a, List.mem_cons_self a rest, h1 ▸ hf⟩
        · rcases ih bs hc x h2 with ⟨a', ha', hfa'⟩
          exact ⟨a', List.mem_cons_of_mem a ha', hfa'⟩

theorem collectResult_error_of_mem {α β ε : Type} (f : α → Except ε β) :
    ∀ (l : List α) (a : α) (e : ε), a ∈ l → f a = .error e →
      ∃ e', collectResult f l = .error e' := by
  intro l
  induction l with
  | nil => intro a e h; simp at h
  | cons x rest ih =>
    intro a e hmem hfa
    rcases List.mem_cons.mp hmem with h1 | h2
    · subst h1
      exact ⟨e, by simp [collectResult, hfa]⟩
    · cases hf : f x with
      | error e2 => exact ⟨e2, by simp [collectResult, hf]⟩
      | ok b =>
        rcases ih a e h2 hfa with ⟨e', he'⟩
        exact ⟨e', by simp [collectResult, hf, he']⟩

theorem collectResult_cons_error {α β ε : Type} (f : α → Except ε β)
    (a : α) (rest : List α) (e : ε) (h : f a = .error e) :
    collectResult f (a :: rest) = .error e := by
  simp [collectResult, h]

theorem consHead_ne_nil (c : Char) (ls : List (List Char)) : consHead c ls ≠ [] := by
  cases ls <;> simp [consHead]

theorem splitOnSep3_ne_nil (a b c : Char) (l : List Char) : splitOnSep3 a b c l ≠ [] := by
  match l with
  | [] => simp [splitOnSep3]
  | [x] => simp [splitOnSep3]
  | [x, y] => simp [splitOnSep3]
  | x :: y :: z :: rest =>
    simp only [splitOnSep3]
    split
    · simp
    · exact consHead_ne_nil _ _

theorem fragmentRaws_ne_nil (s : List Char) : fragmentRaws s ≠ [] := by
  unfold fragmentRaws
  cases hL : (splitOnSep3 ' ' '|' ' '
      (if isDashSpacePfx s then trimStartDash s else s)).getLast? with
  | none =>
    exact absurd (List.getLast?_eq_none_iff.mp hL) (splitOnSep3_ne_nil _ _ _ _)
  | some last =>
    cases hF : findSub3 ' ' '>' ' ' last with
    | none =>
      simp only [hL, hF]
      exact splitOnSep3_ne_nil _ _ _ _
    | some index => simp [hL, hF]

theorem parsePipeline_eq (env : Environment) (s : List Char) :
    parsePipeline env s =
      match collectResult (tokenizeCmd env) (fragmentRaws s) with
      | .error e => .error e
      | .ok cs => .ok (.pipeline cs (fragmentTerminus s) (isDashSpacePfx s) s) := by
  unfold parsePipeline fragmentRaws fragmentTerminus
  by_cases hd : isDashSpacePfx s = true
  all_goals simp only [hd, ite_true, ite_false, Bool.false_eq_true]
  all_goals {
    cases hL : (splitOnSep3 ' ' '|' ' '
        (if isDashSpacePfx s = true then trimStartDash s else s)).getLast? with
    | none =>
      exact absurd (List.getLast?_eq_none_iff.mp hL) (splitOnSep3_ne_nil _ _ _ _)
    | some last =>
      simp only [hd, ite_true, ite_false, Bool.false_eq_true] at hL
      simp only [hL]
      cases hF : findSub3 ' ' '>' ' ' last <;> simp only [hF]
  }

theorem parsePipeline_ok_shape (env : Environment) (s : List Char) (it : Item)
    (h : parsePipeline env s = .ok it) :
    ∃ cs t, it = .pipeline cs t (isDashSpacePfx s) s ∧ cs ≠ [] := by
  rw [parsePipeline_eq] at h
  cases hC : collectResult (tokenizeCmd env) (fragmentRaws s) with
  | error e => rw [hC] at h; simp at h
  | ok cs =>
    rw [hC] at h
    simp only [Except.ok.injEq] at h
    refine ⟨cs, fragmentTerminus s, h.symm, ?_⟩
    intro hnil
    subst hnil
    have hlen := collectResult_ok_length _ _ _ hC
    simp at hlen
    exact fragmentRaws_ne_nil s (List.length_eq_zero.mp hlen.symm)

theorem parsePipeline_error_of_empty_raw (env : Environment) (s raw : List Char)
    (hmem : raw ∈ fragmentRaws s) (htok : splitWordsAll raw = []) :
    ∃ e, parsePipeline env s = .error e := by
  have hcmd : tokenizeCmd env raw = .error "empty command".data := by
    unfold tokenizeCmd
    rw [htok]
  rcases collectResult_error_of_mem (tokenizeCmd env) (fragmentRaws s) raw _ hmem hcmd with
    ⟨e', he'⟩
  refine ⟨e', ?_⟩
  rw [parsePipeline_eq, he']

theorem parsePipeline_empty_first (env : Environment) (s raw : List Char)
    (rest : List (List Char)) (hR : fragmentRaws s = raw :: rest)
    (htok : splitWordsAll raw = []) :
    parsePipeline env s = .error "empty command".data := by
  have hcmd : tokenizeCmd env raw = .error "empty command".data := by
    unfold tokenizeCmd
    rw [htok]
  rw [parsePipeline_eq, hR, collectResult_cons_error _ _ _ _ hcmd]

theorem parseItems_pipeline_origin (env : Environment) (s : List Char)
    (items : List Item) (h : parseItems env s = .ok items) :
    ∀ it ∈ items, ∀ cs t ig lit, it = .pipeline cs t ig lit →
      cs ≠ [] ∧ ig = isDashSpacePfx lit ∧
        ∃ line ∈ ((linesOf s).map trimChars).filter (fun l => !l.isEmpty),
          lit ∈ splitOnChar ';' line ∧ parsePipeline env lit = .ok it := by
  unfold parseItems at h
  cases hC : collectResult
      (fun line =>
        if isCommentPfx line then Except.ok [Item.comment line]
        else collectResult (parsePipeline env) (splitOnChar ';' line))
      (((linesOf s).map trimChars).filter (fun l => !l.isEmpty)) with
  | error e => rw [hC] at h; simp at h
  | ok nested =>
    rw [hC] at h
    simp only [Except.ok.injEq] at h
    subst h
    intro it hit cs t ig lit hshape
    rcases List.mem_flatten.mp hit with ⟨chunk, hchunk, hitc⟩
    rcases collectResult_ok_forall _ _ _ hC chunk hchunk with ⟨line, hline, hfl⟩
    by_cases hcm : isCommentPfx line = true
    · rw [if_pos hcm] at hfl
      simp only [Except.ok.injEq] at hfl
      subst hfl
      rcases List.mem_singleton.mp hitc with rfl
      simp at hshape
    · rw [if_neg hcm] at hfl
      rcases collectResult_ok_forall _ _ _ hfl it hitc with ⟨frag, hfrag, hpp⟩
      rcases parsePipeline_ok_shape env frag it hpp with ⟨cs', t', hit', hne⟩
      rw [hshape] at hit'
      injection hit' with h1 h2 h3 h4
      subst h1; subst h2; subst h3; subst h4
      exact ⟨hne, rfl, line, hline, hfrag, hshape ▸ hpp⟩

theorem inQuote_no_quote (l : List Char) :
    ∀ w, '"' ∉ l → inQuote w l = .inr (w ++ l) := by
  induction l with
  | nil => intro w _; simp [inQuote]
  | cons c rest ih =>
    intro w h
    have hc : c ≠ '"' := fun hh => h (by simp [hh])
    have hrest : '"' ∉ rest := fun hh => h (List.mem_cons_of_mem _ hh)
    cases rest with
    | nil => simp [inQuote, hc]
    | cons c2 rest2 =>
      have hc2 : c2 ≠ '"' := fun hh => hrest (by simp [hh])
      have hesc : ¬(c = '\\' ∧ c2 = '"') := fun hp => hc2 hp.2
      simp only [inQuote, if_neg hesc, if_neg hc]
      rw [ih (w ++ [c]) hrest]
      simp

theorem inQuote_closed (s : List Char) :
    ∀ w rest, '"' ∉ s → '\\' ∉ s →
      inQuote w (s ++ '"' :: rest) = .inl (w ++ s, rest) := by
  induction s with
  | nil =>
    intro w rest _ _
    cases rest with
    | nil => simp [inQuote]
    | cons r rs =>
      have hesc : ¬(('"' : Char) = '\\' ∧ r = '"') := fun hp => by
        have := hp.1
        simp at this
      simp [inQuote, hesc]
  | cons c s' ih =>
    intro w rest hq hb
    have hc : c ≠ '"' := fun hh => hq (by simp [hh])
    have hcb : c ≠ '\\' := fun hh => hb (by simp [hh])
    have hq' : '"' ∉ s' := fun hh => hq (List.mem_cons_of_mem _ hh)
    have hb' : '\\' ∉ s' := fun hh => hb (List.mem_cons_of_mem _ hh)
    cases hs : s' ++ '"' :: rest with
    | nil => exact absurd hs (by simp)
    | cons d tail =>
      have hesc : ¬(c = '\\' ∧ d = '"') := fun hp => hcb hp.1
      rw [List.cons_append, hs]
      simp only [inQuote, if_neg hesc, if_neg hc]
      rw [← hs, ih (w ++ [c]) rest hq' hb']
      simp

theorem nextWord_quoted (w s rest : List Char) (hq : '"' ∉ s) (hb : '\\' ∉ s) :
    nextWord w ('"' :: (s ++ '"' :: rest)) = some (w ++ s, rest) := by
  simp only [nextWord, if_pos rfl]
  rw [inQuote_closed s w rest hq hb]
  simp

theorem nextWord_unterminated (w s : List Char) (hq : '"' ∉ s) :
    nextWord w ('"' :: s) = some (w ++ s ++ ['"'], []) := by
  simp only [nextWord, if_pos rfl]
  rw [inQuote_no_quote s w hq]
  simp

theorem splitWordsFuel_nil (fuel : Nat) : splitWordsFuel (fuel + 1) [] = [] := by
  simp [splitWordsFuel, nextWord]

theorem splitWordsAll_unterminated (s : List Char) (hq : '"' ∉ s) :
    splitWordsAll ('"' :: s) = [s ++ ['"']] := by
  unfold splitWordsAll
  show splitWordsFuel (s.length + 1 + 1) ('"' :: s) = [s ++ ['"']]
  rw [show s.length + 1 + 1 = (s.length + 1) + 1 from rfl]
  simp only [splitWordsFuel]
  rw [nextWord_unterminated [] s hq]
  simp [splitWordsFuel, nextWord]

theorem scanIdent_closed (id suf : List Char) (h : ')' ∉ id) :
    scanIdent (id ++ ')' :: suf) = (id, suf) := by
  induction id with
  | nil => simp [scanIdent]
  | cons c id' ih =>
    have hc : c ≠ ')' := fun hh => h (by simp [hh])
    have h' : ')' ∉ id' := fun hh => h (List.mem_cons_of_mem _ hh)
    simp [scanIdent, hc, ih h']

theorem scanArg_cons_ne (c : Char) (l : List Char) (hc : c ≠ '$') :
    scanArg (c :: l) = (c :: (scanArg l).1, (scanArg l).2.1, (scanArg l).2.2) := by
  simp only [scanArg, if_neg hc]

theorem scanArg_site (pre id suf : List Char) (hp : '$' ∉ pre) (hid : ')' ∉ id) :
    scanArg (pre ++ '$' :: '(' :: (id ++ ')' :: suf)) = (pre, id, suf) := by
  induction pre with
  | nil =>
    have h0 : scanArg ([] ++ '$' :: '(' :: (id ++ ')' :: suf)) =
        ([], (scanIdent (id ++ ')' :: suf)).1, (scanIdent (id ++ ')' :: suf)).2) := rfl
    rw [h0, scanIdent_closed id suf hid]
  | cons c pre' ih =>
    have hc : c ≠ '$' := fun hh => hp (by simp [hh])
    have hp' : '$' ∉ pre' := fun hh => hp (List.mem_cons_of_mem _ hh)
    rw [List.cons_append, scanArg_cons_ne c _ hc, ih hp']

theorem parseArgument_site (env : Environment) (pre id suf : List Char)
    (hp : '$' ∉ pre) (hid : ')' ∉ id) :
    parseArgument env (pre ++ '$' :: '(' :: (id ++ ')' :: suf)) =
      match resolveIdent env id with
      | some v => .ok (pre ++ v ++ suf)
      | none => .error ("no value specified for argument: ".data ++ id) := by
  have hmem : '$' ∈ pre ++ '$' :: '(' :: (id ++ ')' :: suf) := by simp
  unfold parseArgument
  rw [if_pos hmem, scanArg_site pre id suf hp hid]

/-! ### Claims -/

/-- C1 counterexample: the claim's resolution rule fails on ident `0`.
The string `0` does not parse as a *positive* integer, so per the claim it
should be looked up as a named key; with named map `{0 ↦ x}` that lookup
succeeds, yet the code still reports the missing-value error, because
`usize` parsing accepts `0` and routes it to the (wrapping) positional
lookup. -/
theorem c1_zero_ident_counterexample :
    specPositiveInt "0".data = none ∧
    lookupNamed [("0".data, "x".data)] "0".data = some "x".data ∧
    parseArgument ⟨[("0".data, "x".data)], []⟩ "$(0)".data =
      .error ("no value specified for argument: 0".data) :=
  ⟨by rfl, by rfl, by rfl⟩

/-- C1 (amended): an argument of shape `prefix $(ident) suffix` resolves the
ident as a 1-based positional index whenever it parses as a `usize`
(including `0`, whose `index - 1` wraps and always misses), otherwise as a
named key; a miss is the fatal error naming the ident, a hit substitutes
`prefix ++ value ++ suffix`.  Concretely, the named round-trip example
parses as claimed and a missing reference fails naming `Unknown`. -/
theorem c1_substitution_resolution :
    (∀ (env : Environment) (pre id suf : List Char), '$' ∉ pre → ')' ∉ id →
        parseArgument env (pre ++ '$' :: '(' :: (id ++ ')' :: suf)) =
          match resolveIdent env id with
          | some v => .ok (pre ++ v ++ suf)
          | none => .error ("no value specified for argument: ".data ++ id)) ∧
    parseItems ⟨[("Version".data, "0.3.0".data), ("Bin".data, "binary".data)], []⟩
        "ident v$(Version) $(Bin).exe".data =
      .ok [.pipeline [⟨"ident".data, ["v0.3.0".data, "binary.exe".data]⟩] none false
        "ident v$(Version) $(Bin).exe".data] ∧
    parseItems ⟨[], []⟩ "run $(Unknown)".data =
      .error ("no value specified for argument: Unknown".data) :=
  ⟨fun env pre id suf hp hid => parseArgument_site env pre id suf hp hid,
   by rfl, by rfl⟩

/-- C1 witness: the general substitution equation at a concrete input. -/
theorem c1_substitution_resolution_witness :
    parseArgument ⟨[("X".data, "y".data)], []⟩
        ("v".data ++ '$' :: '(' :: ("X".data ++ ')' :: [])) =
      match resolveIdent ⟨[("X".data, "y".data)], []⟩ "X".data with
      | some v => .ok ("v".data ++ v ++ [])
      | none => .error ("no value specified for argument: ".data ++ "X".data) :=
  c1_substitution_resolution.1 ⟨[("X".data, "y".data)], []⟩ "v".data "X".data []
    (by decide) (by decide)

/-- C2: a quoted span is yielded as one token the moment the bare closing
quote is seen (contents verbatim, surrounding quotes stripped, remainder of
the stream untouched), and the spec's escaped-quote example tokenizes to
exactly the four claimed tokens with the `\"` escapes preserved literally. -/
theorem c2_word_splitter :
    (∀ (w s rest : List Char), '"' ∉ s → '\\' ∉ s →
        nextWord w ('"' :: (s ++ '"' :: rest)) = some (w ++ s, rest)) ∧
    splitWordsAll "foo bar \"baz bazinga \\\"foobar\\\" \" foobaz".data =
      ["foo".data, "bar".data, "baz bazinga \\\"foobar\\\" ".data, "foobaz".data] :=
  ⟨fun w s rest hq hb => nextWord_quoted w s rest hq hb, by rfl⟩

/-- C2 witness: the quoted-span equation at a concrete input. -/
theorem c2_word_splitter_witness :
    nextWord [] ('"' :: ("ab".data ++ '"' :: " c".data)) =
      some ([] ++ "ab".data, " c".data) :=
  c2_word_splitter.1 [] "ab".data " c".data (by decide) (by decide)

/-- C3: commands are split on the literal `" | "` delimiter, so a quoted
pipe survives as an argument: the example parses into three commands whose
second is `rg` with the single literal argument `|`. -/
theorem c3_quoted_pipe :
    splitOnSep3 ' ' '|' ' ' "cat f | rg \"|\" | head 5".data =
      ["cat f".data, "rg \"|\"".data, "head 5".data] ∧
    parsePipeline ⟨[], []⟩ "cat f | rg \"|\" | head 5".data =
      .ok (.pipeline [⟨"cat".data, ["f".data]⟩, ⟨"rg".data, ["|".data]⟩,
        ⟨"head".data, ["5".data]⟩] none false "cat f | rg \"|\" | head 5".data) :=
  ⟨by rfl, by rfl⟩

/-- C4: a fragment starting with `"- "` parses with `ignore_failure = true`
and its untouched literal; only the last raw command is inspected for
`" > "` (a `" > "` in an earlier command stays an argument), and the
dash-plus-redirection example parses exactly as claimed. -/
theorem c4_dash_and_terminus :
    (∀ (env : Environment) (s : List Char) (it : Item), isDashSpacePfx s = true →
        parsePipeline env s = .ok it → ∃ cs t, it = .pipeline cs t true s) ∧
    parsePipeline ⟨[], []⟩ "- cat f | rg x | head 5 > out.txt".data =
      .ok (.pipeline [⟨"cat".data, ["f".data]⟩, ⟨"rg".data, ["x".data]⟩,
        ⟨"head".data, ["5".data]⟩] (some "out.txt".data) true
        "- cat f | rg x | head 5 > out.txt".data) ∧
    parsePipeline ⟨[], []⟩ "a > b | c".data =
      .ok (.pipeline [⟨"a".data, [">".data, "b".data]⟩, ⟨"c".data, []⟩] none false
        "a > b | c".data) := by
  refine ⟨?_, by rfl, by rfl⟩
  intro env s it hd h
  rcases parsePipeline_ok_shape env s it h with ⟨cs, t, hit, _⟩
  exact ⟨cs, t, by rw [hit, hd]⟩

/-- C4 witness: the ignore-failure shape at a concrete input. -/
theorem c4_dash_and_terminus_witness :
    ∃ cs t, (Item.pipeline [⟨"a".data, []⟩] none true "- a".data) =
      Item.pipeline cs t true "- a".data :=
  c4_dash_and_terminus.1 ⟨[], []⟩ "- a".data
    (Item.pipeline [⟨"a".data, []⟩] none true "- a".data) (by rfl) (by rfl)

/-- C5: environment construction in token order — a `-` token becomes a
named entry (name stripped of surrounding dashes, value the next token), a
flag followed by another flag fails with the "missing a value" error naming
the flag, a trailing flag with no value is silently dropped, any other token
is appended to the positional list; and the spec's example yields positional
`[foo, bar, baz]` with named `{Message ↦ feat: x, Version ↦ 0.3.0}`. -/
theorem c5_environment :
    (∀ (env : Environment) (flag : List Char), isDashPfx flag = true →
        envLoop env [flag] = .ok env) ∧
    (∀ (env : Environment) (flag v : List Char) (rest : List (List Char)),
        isDashPfx flag = true → isDashPfx v = true →
        envLoop env (flag :: v :: rest) = .error (flag ++ " is missing a value".data)) ∧
    (∀ (env : Environment) (flag v : List Char) (rest : List (List Char)),
        isDashPfx flag = true → isDashPfx v = false →
        envLoop env (flag :: v :: rest) =
          envLoop ⟨(trimDashes flag, v) :: env.named, env.positional⟩ rest) ∧
    (∀ (env : Environment) (t : List Char) (rest : List (List Char)),
        isDashPfx t = false →
        envLoop env (t :: rest) = envLoop ⟨env.named, env.positional ++ [t]⟩ rest) ∧
    environmentFromStr "-Message \"feat: x\" -Version 0.3.0 foo bar baz".data =
      .ok ⟨[("Version".data, "0.3.0".data), ("Message".data, "feat: x".data)],
        ["foo".data, "bar".data, "baz".data]⟩ ∧
    lookupNamed [("Version".data, "0.3.0".data), ("Message".data, "feat: x".data)]
        "Message".data = some "feat: x".data ∧
    lookupNamed [("Version".data, "0.3.0".data), ("Message".data, "feat: x".data)]
        "Version".data = some "0.3.0".data := by
  refine ⟨?_, ?_, ?_, ?_, by rfl, by rfl, by rfl⟩
  · intro env flag h
    simp [envLoop, h]
  · intro env flag v rest h1 h2
    simp [envLoop, h1, h2]
  · intro env flag v rest h1 h2
    simp [envLoop, h1, h2]
  · intro env t rest h
    conv_lhs => rw [envLoop.eq_def]
    simp [h]

/-- C5 witness: the four token-processing rules at concrete inputs. -/
theorem c5_environment_witness :
    envLoop ⟨[], []⟩ ["-A".data] = .ok ⟨[], []⟩ ∧
    envLoop ⟨[], []⟩ ["-A".data, "-B".data] = .error ("-A".data ++ " is missing a value".data) ∧
    envLoop ⟨[], []⟩ ["-A".data, "b".data] = envLoop ⟨[(trimDashes "-A".data, "b".data)], []⟩ [] ∧
    envLoop ⟨[], []⟩ ["p".data] = envLoop ⟨[], [] ++ ["p".data]⟩ [] :=
  ⟨c5_environment.1 ⟨[], []⟩ "-A".data (by rfl),
   c5_environment.2.1 ⟨[], []⟩ "-A".data "-B".data [] (by rfl) (by rfl),
   c5_environment.2.2.1 ⟨[], []⟩ "-A".data "b".data [] (by rfl) (by rfl),
   c5_environment.2.2.2.1 ⟨[], []⟩ "p".data [] (by rfl)⟩

/-- C6 counterexample: a fragment containing a raw command with no tokens
does not necessarily fail with the "empty command" error — an earlier
command's failing substitution reports first. -/
theorem c6_error_precedence_counterexample :
    [] ∈ fragmentRaws "a $(U) |  | b".data ∧
    splitWordsAll ([] : List Char) = [] ∧
    parsePipeline ⟨[], []⟩ "a $(U) |  | b".data =
      .error ("no value specified for argument: U".data) ∧
    "no value specified for argument: U".data ≠ "empty command".data :=
  ⟨by decide, by rfl, by rfl, by decide⟩

/-- C6 (amended): every pipeline of a successful parse has at least one
command; a fragment containing a raw command with no tokens always fails
with some error (never yielding a shortened pipeline), and with the
"empty command" error when that command comes before any failing
substitution (in particular when it is the first raw command). -/
theorem c6_nonempty_invariant :
    (∀ (env : Environment) (s : List Char) (items : List Item),
        parseItems env s = .ok items →
        ∀ (cs : List Cmd) (t : Option (List Char)) (ig : Bool) (lit : List Char),
          Item.pipeline cs t ig lit ∈ items → cs ≠ []) ∧
    (∀ (env : Environment) (s raw : List Char), raw ∈ fragmentRaws s →
        splitWordsAll raw = [] → ∃ e, parsePipeline env s = .error e) ∧
    (∀ (env : Environment) (s raw : List Char) (rest : List (List Char)),
        fragmentRaws s = raw :: rest → splitWordsAll raw = [] →
        parsePipeline env s = .error "empty command".data) := by
  refine ⟨?_, ?_, ?_⟩
  · intro env s items h cs t ig lit hmem
    exact (parseItems_pipeline_origin env s items h _ hmem cs t ig lit rfl).1
  · intro env s raw hmem htok
    exact parsePipeline_error_of_empty_raw env s raw hmem htok
  · intro env s raw rest hR htok
    exact parsePipeline_empty_first env s raw rest hR htok

/-- C6 witness: the invariant and the empty-command error at concrete
inputs. -/
theorem c6_nonempty_invariant_witness :
    ([⟨"a".data, ([] : List (List Char))⟩] : List Cmd) ≠ [] ∧
    (∃ e, parsePipeline ⟨[], []⟩ " | b".data = .error e) ∧
    parsePipeline ⟨[], []⟩ " | b".data = .error "empty command".data :=
  ⟨c6_nonempty_invariant.1 ⟨[], []⟩ "a".data
      [Item.pipeline [⟨"a".data, []⟩] none false "a".data] (by rfl)
      [⟨"a".data, []⟩] none false "a".data (List.mem_singleton.mpr rfl),
   c6_nonempty_invariant.2.1 ⟨[], []⟩ " | b".data [] (by decide) (by rfl),
   c6_nonempty_invariant.2.2 ⟨[], []⟩ " | b".data [] ["b".data] (by rfl) (by rfl)⟩

/-- C7 counterexample: a `';'`-split fragment is not re-trimmed — the second
pipeline of `echo a ; echo b` records the literal `" echo b"` with its
leading space, which differs from the trimmed fragment the claim
prescribes. -/
theorem c7_literal_counterexample :
    parseItems ⟨[], []⟩ "echo a ; echo b".data =
      .ok [.pipeline [⟨"echo".data, ["a".data]⟩] none false "echo a ".data,
        .pipeline [⟨"echo".data, ["b".data]⟩] none false " echo b".data] ∧
    trimChars " echo b".data = "echo b".data ∧
    " echo b".data ≠ "echo b".data :=
  ⟨by rfl, by rfl, by decide⟩

/-- C7 (amended): the literal field equals the source fragment exactly as
produced by splitting the trimmed line on `';'` (captured before the `"- "`
stripping or any other transformation, but *not* re-trimmed, so fragments
after a `';'` keep their surrounding spaces); every pipeline item's literal
is such a fragment of a trimmed line. -/
theorem c7_literal_field :
    (∀ (env : Environment) (s : List Char) (it : Item),
        parsePipeline env s = .ok it →
        ∃ cs t, it = .pipeline cs t (isDashSpacePfx s) s) ∧
    (∀ (env : Environment) (s : List Char) (items : List Item),
        parseItems env s = .ok items →
        ∀ it ∈ items, ∀ (cs : List Cmd) (t : Option (List Char)) (ig : Bool)
          (lit : List Char), it = .pipeline cs t ig lit →
          ∃ line ∈ ((linesOf s).map trimChars).filter (fun l => !l.isEmpty),
            lit ∈ splitOnChar ';' line) ∧
    parseItems ⟨[], []⟩ "  echo one  ".data =
      .ok [.pipeline [⟨"echo".data, ["one".data]⟩] none false "echo one".data] := by
  refine ⟨?_, ?_, by rfl⟩
  · intro env s it h
    rcases parsePipeline_ok_shape env s it h with ⟨cs, t, hit, _⟩
    exact ⟨cs, t, hit⟩
  · intro env s items h it hmem cs t ig lit hshape
    rcases parseItems_pipeline_origin env s items h it hmem cs t ig lit hshape with
      ⟨_, _, line, hline, hfrag, _⟩
    exact ⟨line, hline, hfrag⟩

/-- C7 witness: literal preservation and fragment provenance at concrete
inputs. -/
theorem c7_literal_field_witness :
    (∃ cs t, (Item.pipeline [⟨"x".data, []⟩] none false "x".data) =
      Item.pipeline cs t (isDashSpacePfx "x".data) "x".data) ∧
    (∃ line ∈ ((linesOf "x".data).map trimChars).filter (fun l => !l.isEmpty),
      "x".data ∈ splitOnChar ';' line) :=
  ⟨c7_literal_field.1 ⟨[], []⟩ "x".data
      (Item.pipeline [⟨"x".data, []⟩] none false "x".data) (by rfl),
   c7_literal_field.2.1 ⟨[], []⟩ "x".data
      [Item.pipeline [⟨"x".data, []⟩] none false "x".data] (by rfl)
      (Item.pipeline [⟨"x".data, []⟩] none false "x".data)
      (List.mem_singleton.mpr rfl) [⟨"x".data, []⟩] none false "x".data rfl⟩

/-- C8 counterexample: `cp` with *three* arguments does not abort — the
first two are used and the extra argument is silently ignored, so "any
wrong argument count aborts" is false. -/
theorem c8_extra_args_counterexample :
    cpCommand (fun _ _ => .ok ()) ["a".data, "b".data, "c".data] = .ok () ∧
    cpCommand (fun s d => .error (s ++ d)) ["a".data, "b".data, "c".data] =
      .error "cp a b: ab".data :=
  ⟨by rfl, by rfl⟩

/-- C8 (amended): `cp` requires at least two arguments — zero or one
argument aborts the pipeline with the descriptive invalid-arguments error;
with two or more arguments the first two are used as source and destination
(extras ignored) and a copy failure aborts with `cp <src> <dst>: <cause>`. -/
theorem c8_cp_arity :
    (∀ copy, cpCommand copy [] =
        .error "cp: invalid arguments: None None".data) ∧
    (∀ copy (a : List Char), cpCommand copy [a] =
        .error ("cp: invalid arguments: ".data ++ optionDebugFmt (some a) ++ " ".data ++
          optionDebugFmt none)) ∧
    (∀ copy (s d : List Char) (rest : List (List Char)),
        cpCommand copy (s :: d :: rest) =
          match copy s d with
          | .ok u => .ok u
          | .error e => .error ("cp ".data ++ s ++ " ".data ++ d ++ ": ".data ++ e)) :=
  ⟨fun _ => rfl, fun _ _ => rfl, fun _ _ _ _ => rfl⟩

/-- C9 counterexample: with an unterminated quote the final token is *not*
just the collected span contents — the fall-through appends the quote
character, so `"abc` tokenizes to `abc"` rather than `abc`. -/
theorem c9_trailing_quote_counterexample :
    splitWordsAll "\"abc".data = ["abc\"".data] ∧
    "abc\"".data ≠ "abc".data :=
  ⟨by rfl, by decide⟩

/-- C9 (amended): an opening quote with no later bare closing quote
consumes the remainder of the stream without any error, and the final
yielded token is the characters collected inside the span *followed by one
appended `"` character* (the opening quote pushed by the fall-through). -/
theorem c9_unterminated_quote :
    (∀ s : List Char, '"' ∉ s → splitWordsAll ('"' :: s) = [s ++ ['"']]) ∧
    splitWordsAll "foo \"bar baz".data = ["foo".data, "bar baz\"".data] :=
  ⟨fun s hq => splitWordsAll_unterminated s hq, by rfl⟩

/-- C9 witness: the unterminated-quote equation at a concrete input. -/
theorem c9_unterminated_quote_witness :
    splitWordsAll ('"' :: "ab".data) = ["ab".data ++ ['"']] :=
  c9_unterminated_quote.1 "ab".data (by decide)

/-- C10 counterexample: for ident `0` the 1-based index computation *does*
underflow — the minuend `0` is smaller than the subtrahend `1`, and the
release-mode wrapping subtraction yields `2 ^ 64 - 1` rather than a valid
index (a debug build would panic on this subtraction). -/
theorem c10_underflow_counterexample :
    parseUsize "0".data = some 0 ∧ (0 : Nat) < 1 ∧
    usizeSub 0 1 = 2 ^ 64 - 1 ∧
    parseArgument ⟨[], []⟩ "$(0)".data =
      .error ("no value specified for argument: 0".data) :=
  ⟨by rfl, by decide, by decide, by rfl⟩

/-- C10 (amended): under release (wrapping) semantics `parse_argument`
always returns a substituted string or an error, and for ident `0` the
wrapped index `2 ^ 64 - 1` misses any positional list that fits in memory,
so the call returns the missing-value error rather than aborting (debug
builds would instead panic on the underflowing subtraction). -/
theorem c10_parse_argument_total :
    (∀ (env : Environment) (arg : List Char),
        (∃ v, parseArgument env arg = .ok v) ∨
        (∃ e, parseArgument env arg = .error e)) ∧
    (∀ env : Environment, env.positional.length ≤ 2 ^ 64 - 1 →
        parseArgument env "$(0)".data =
          .error ("no value specified for argument: 0".data)) := by
  constructor
  · intro env arg
    cases h : parseArgument env arg with
    | ok v => exact Or.inl ⟨v, rfl⟩
    | error e => exact Or.inr ⟨e, rfl⟩
  · intro env hlen
    have h1 := parseArgument_site env [] "0".data [] (by decide) (by decide)
    have h2 : ("$(0)".data : List Char) =
        [] ++ '$' :: '(' :: ("0".data ++ ')' :: []) := rfl
    rw [h2, h1]
    have h3 : resolveIdent env "0".data = env.positional.get? (2 ^ 64 - 1) := by
      show env.positional.get? (usizeSub 0 1) = env.positional.get? (2 ^ 64 - 1)
      rw [show usizeSub 0 1 = 2 ^ 64 - 1 from by decide]
    rw [h3, List.get?_eq_none.mpr hlen]
    rfl

/-- C10 witness: totality and the ident-`0` behavior at concrete inputs. -/
theorem c10_parse_argument_total_witness :
    ((∃ v, parseArgument ⟨[], []⟩ "x".data = .ok v) ∨
      (∃ e, parseArgument ⟨[], []⟩ "x".data = .error e)) ∧
    parseArgument ⟨[], []⟩ "$(0)".data =
      .error ("no value specified for argument: 0".data) :=
  ⟨c10_parse_argument_total.1 ⟨[], []⟩ "x".data,
   c10_parse_argument_total.2 ⟨[], []⟩ (by decide)⟩
